import Mathlib

/-!
# Verification of the message rendering pipeline of the chat widget

This file gives a shallow embedding, over `List Char`, of the client-side
message formatting and transcript bookkeeping code of the repository
(`script.js` and its variants): the HTML escaper, the inline bold/italic
formatter, the line-oriented block formatter, the transcript lifecycle of the
form-submit handler (seed greeting eviction, typing placeholder), and the
response handling of the network call.  Theorems at the end settle the
testable properties of the specification against these definitions.
-/

namespace LorealChat

/-! ## Characters and JavaScript whitespace

`isJsWs` embeds the character class `\s` of JavaScript regular expressions
(also the set trimmed by `String.prototype.trim`): ASCII whitespace,
no-break space, and the Unicode space separators, line separators and BOM.
-/

/-- Code points matched by the JavaScript regexp class `\s`. -/
def wsCodes : List Nat :=
  [9, 10, 11, 12, 13, 32, 160, 0x1680,
   0x2000, 0x2001, 0x2002, 0x2003, 0x2004, 0x2005, 0x2006, 0x2007,
   0x2008, 0x2009, 0x200a, 0x2028, 0x2029, 0x202f, 0x205f, 0x3000, 0xfeff]

/-- JavaScript whitespace (`\s`, also the class trimmed by `trim()`). -/
def isJsWs (c : Char) : Bool := wsCodes.contains c.toNat

/-- A line terminator: a character the JavaScript regexp `.` does not
match (the two ASCII ones; U+2028/U+2029 are not modelled). -/
def isLineTerm (c : Char) : Bool := c == '\n' || c == '\r'

/-- `text.trim()` of JavaScript: strip `\s` characters from both ends. -/
def jsTrim (s : List Char) : List Char :=
  List.reverse (List.dropWhile isJsWs (List.reverse (List.dropWhile isJsWs s)))

/-- `line.trim() === ""`: the line is empty or whitespace-only. -/
def isBlank (s : List Char) : Bool := s.all isJsWs

/-- First character satisfies `p` (and the list is nonempty). -/
def headSat (p : Char → Bool) : List Char → Bool
  | c :: _ => p c
  | [] => false

/-! ## The Escaper

`escapeHtml` in the source reads back `p.innerHTML` after assigning
`p.textContent = text`.  The HTML fragment-serialization of a text node
replaces the three markup-structural characters by their entities and
leaves every other character (quotes included) as it is; that substitution
is what `escapeChar`/`escapeHtml` embed.  (Browsers additionally
entity-encode U+00A0 as `&nbsp;`, which likewise renders as the input
character and is outside the character set at stake here.) -/

/-- Escape one character: `&`, `<`, `>` become entities, everything else
passes through unchanged. -/
def escapeChar (c : Char) : List Char :=
  if c = '&' then "&amp;".data
  else if c = '<' then "&lt;".data
  else if c = '>' then "&gt;".data
  else [c]

/-- The Escaper: `escapeHtml` of the source, character by character. -/
def escapeHtml : List Char → List Char
  | [] => []
  | c :: rest => escapeChar c ++ escapeHtml rest

/-- Does a list start with the tail of one of the three entities?  Used to
state that an `&` in escaper output is never raw. -/
def entityTail : List Char → Bool
  | 'a' :: 'm' :: 'p' :: ';' :: _ => true
  | 'l' :: 't' :: ';' :: _ => true
  | 'g' :: 't' :: ';' :: _ => true
  | _ => false

/-- Scan a string for raw structural characters: `<` and `>` may not occur
at all, and every `&` must begin one of the three entities. -/
def noRawStructural : List Char → Bool
  | [] => true
  | c :: rest =>
    if c = '<' ∨ c = '>' then false
    else if c = '&' then entityTail rest && noRawStructural rest
    else noRawStructural rest

/-- Decode the three entities back to characters: the structural-markup
consumer's reading of escaper output as plain text. -/
def unescapeHtml : List Char → List Char
  | [] => []
  | '&' :: 'a' :: 'm' :: 'p' :: ';' :: rest => '&' :: unescapeHtml rest
  | '&' :: 'l' :: 't' :: ';' :: rest => '<' :: unescapeHtml rest
  | '&' :: 'g' :: 't' :: ';' :: rest => '>' :: unescapeHtml rest
  | c :: rest => c :: unescapeHtml rest

lemma escapeChar_of_ord {c : Char} (h : ¬(c = '&' ∨ c = '<' ∨ c = '>')) :
    escapeChar c = [c] := by
  push_neg at h
  obtain ⟨h1, h2, h3⟩ := h
  simp [escapeChar, h1, h2, h3]

lemma unescapeHtml_cons_ord {c : Char} (t : List Char) (h : c ≠ '&') :
    unescapeHtml (c :: t) = c :: unescapeHtml t := by
  conv_lhs => rw [unescapeHtml.eq_def]
  split
  · rename_i heq
    exact absurd heq (List.cons_ne_nil c t)
  · rename_i heq
    injection heq with h1 _
    exact absurd h1 h
  · rename_i heq
    injection heq with h1 _
    exact absurd h1 h
  · rename_i heq
    injection heq with h1 _
    exact absurd h1 h
  · rename_i heq
    injection heq with h1 h2
    subst h1
    subst h2
    rfl

lemma noRawStructural_cons_ord {c : Char} (t : List Char)
    (h : ¬(c = '&' ∨ c = '<' ∨ c = '>')) :
    noRawStructural (c :: t) = noRawStructural t := by
  push_neg at h
  obtain ⟨h1, h2, h3⟩ := h
  simp [noRawStructural, h1, h2, h3]

lemma noRawStructural_amp (t : List Char) :
    noRawStructural ('&' :: 'a' :: 'm' :: 'p' :: ';' :: t) = noRawStructural t := by
  rw [show noRawStructural ('&' :: 'a' :: 'm' :: 'p' :: ';' :: t)
      = (entityTail ('a' :: 'm' :: 'p' :: ';' :: t) && noRawStructural ('a' :: 'm' :: 'p' :: ';' :: t)) by
    rw [noRawStructural]
    rw [if_neg (by decide), if_pos rfl]]
  rw [show entityTail ('a' :: 'm' :: 'p' :: ';' :: t) = true from rfl, Bool.true_and]
  rw [noRawStructural_cons_ord _ (by decide), noRawStructural_cons_ord _ (by decide),
    noRawStructural_cons_ord _ (by decide), noRawStructural_cons_ord _ (by decide)]

lemma noRawStructural_lt (t : List Char) :
    noRawStructural ('&' :: 'l' :: 't' :: ';' :: t) = noRawStructural t := by
  rw [show noRawStructural ('&' :: 'l' :: 't' :: ';' :: t)
      = (entityTail ('l' :: 't' :: ';' :: t) && noRawStructural ('l' :: 't' :: ';' :: t)) by
    rw [noRawStructural]
    rw [if_neg (by decide), if_pos rfl]]
  rw [show entityTail ('l' :: 't' :: ';' :: t) = true from rfl, Bool.true_and]
  rw [noRawStructural_cons_ord _ (by decide), noRawStructural_cons_ord _ (by decide),
    noRawStructural_cons_ord _ (by decide)]

lemma noRawStructural_gt (t : List Char) :
    noRawStructural ('&' :: 'g' :: 't' :: ';' :: t) = noRawStructural t := by
  rw [show noRawStructural ('&' :: 'g' :: 't' :: ';' :: t)
      = (entityTail ('g' :: 't' :: ';' :: t) && noRawStructural ('g' :: 't' :: ';' :: t)) by
    rw [noRawStructural]
    rw [if_neg (by decide), if_pos rfl]]
  rw [show entityTail ('g' :: 't' :: ';' :: t) = true from rfl, Bool.true_and]
  rw [noRawStructural_cons_ord _ (by decide), noRawStructural_cons_ord _ (by decide),
    noRawStructural_cons_ord _ (by decide)]

lemma noRawStructural_escape (s : List Char) :
    noRawStructural (escapeHtml s) = true := by
  induction s with
  | nil => rfl
  | cons c rest ih =>
    show noRawStructural (escapeChar c ++ escapeHtml rest) = true
    by_cases h1 : c = '&'
    · subst h1
      rw [show escapeChar '&' = "&amp;".data from by decide]
      rw [show ("&amp;".data ++ escapeHtml rest)
          = '&' :: 'a' :: 'm' :: 'p' :: ';' :: escapeHtml rest from rfl]
      rw [noRawStructural_amp]
      exact ih
    · by_cases h2 : c = '<'
      · subst h2
        rw [show escapeChar '<' = "&lt;".data from by decide]
        rw [show ("&lt;".data ++ escapeHtml rest)
            = '&' :: 'l' :: 't' :: ';' :: escapeHtml rest from rfl]
        rw [noRawStructural_lt]
        exact ih
      · by_cases h3 : c = '>'
        · subst h3
          rw [show escapeChar '>' = "&gt;".data from by decide]
          rw [show ("&gt;".data ++ escapeHtml rest)
              = '&' :: 'g' :: 't' :: ';' :: escapeHtml rest from rfl]
          rw [noRawStructural_gt]
          exact ih
        · rw [escapeChar_of_ord (by tauto), List.singleton_append,
            noRawStructural_cons_ord _ (by tauto)]
          exact ih

lemma unescape_escape (s : List Char) :
    unescapeHtml (escapeHtml s) = s := by
  induction s with
  | nil => rfl
  | cons c rest ih =>
    show unescapeHtml (escapeChar c ++ escapeHtml rest) = c :: rest
    by_cases h1 : c = '&'
    · subst h1
      rw [show escapeChar '&' = "&amp;".data from by decide]
      rw [show ("&amp;".data ++ escapeHtml rest)
          = '&' :: 'a' :: 'm' :: 'p' :: ';' :: escapeHtml rest from rfl]
      rw [unescapeHtml, ih]
    · by_cases h2 : c = '<'
      · subst h2
        rw [show escapeChar '<' = "&lt;".data from by decide]
        rw [show ("&lt;".data ++ escapeHtml rest)
            = '&' :: 'l' :: 't' :: ';' :: escapeHtml rest from rfl]
        rw [unescapeHtml, ih]
      · by_cases h3 : c = '>'
        · subst h3
          rw [show escapeChar '>' = "&gt;".data from by decide]
          rw [show ("&gt;".data ++ escapeHtml rest)
              = '&' :: 'g' :: 't' :: ';' :: escapeHtml rest from rfl]
          rw [unescapeHtml, ih]
        · rw [escapeChar_of_ord (by tauto), List.singleton_append,
            unescapeHtml_cons_ord _ h1, ih]

lemma escapeHtml_id_of_clean (s : List Char)
    (h : ∀ c ∈ s, ¬(c = '&' ∨ c = '<' ∨ c = '>')) :
    escapeHtml s = s := by
  induction s with
  | nil => rfl
  | cons c rest ih =>
    show escapeChar c ++ escapeHtml rest = c :: rest
    rw [escapeChar_of_ord (h c (List.mem_cons_self c rest)),
      ih (fun d hd => h d (List.mem_cons_of_mem c hd)), List.singleton_append]

/-- C1: for every input, the Escaper's output contains no raw occurrence of
`<`, `>` or `&` (each is replaced by its entity: every remaining `&` begins
an entity), all other characters pass through unchanged, and decoding the
output as markup text yields exactly the input string. -/
theorem C1_escaper_output_safe (s : List Char) :
    noRawStructural (escapeHtml s) = true ∧
    unescapeHtml (escapeHtml s) = s ∧
    (∀ c : Char, ¬(c = '&' ∨ c = '<' ∨ c = '>') → escapeChar c = [c]) ∧
    (∀ t : List Char, (∀ c ∈ t, ¬(c = '&' ∨ c = '<' ∨ c = '>')) →
      escapeHtml t = t) :=
  ⟨noRawStructural_escape s, unescape_escape s,
    fun _ h => escapeChar_of_ord h,
    fun t h => escapeHtml_id_of_clean t h⟩

/-- Witness for C1 at a concrete input containing all three structural
characters, a newline and non-ASCII text. -/
theorem C1_escaper_output_safe_witness :
    noRawStructural (escapeHtml "<b>&amp; déjà\nvu".data) = true ∧
    unescapeHtml (escapeHtml "<b>&amp; déjà\nvu".data) = "<b>&amp; déjà\nvu".data ∧
    escapeChar 'x' = ['x'] ∧
    escapeHtml "déjà vu".data = "déjà vu".data := by
  obtain ⟨h1, h2, h3, h4⟩ := C1_escaper_output_safe "<b>&amp; déjà\nvu".data
  exact ⟨h1, h2, h3 'x' (by decide), h4 "déjà vu".data (by decide)⟩

/-- The double-quote character. -/
def quoteChar : Char := Char.ofNat 34

/-- The single-quote (apostrophe) character. -/
def squoteChar : Char := Char.ofNat 39

lemma count_escapeChar (q c : Char) (hq : q = quoteChar ∨ q = squoteChar) :
    (escapeChar c).count q = ([c] : List Char).count q := by
  by_cases h1 : c = '&'
  · subst h1
    rcases hq with h | h <;> subst h <;> decide
  · by_cases h2 : c = '<'
    · subst h2
      rcases hq with h | h <;> subst h <;> decide
    · by_cases h3 : c = '>'
      · subst h3
        rcases hq with h | h <;> subst h <;> decide
      · rw [escapeChar_of_ord (by tauto)]

lemma count_escapeHtml (q : Char) (hq : q = quoteChar ∨ q = squoteChar)
    (s : List Char) : (escapeHtml s).count q = s.count q := by
  induction s with
  | nil => rfl
  | cons c rest ih =>
    show (escapeChar c ++ escapeHtml rest).count q = ((c :: rest) : List Char).count q
    rw [show ((c :: rest) : List Char) = [c] ++ rest from rfl]
    rw [List.count_append, List.count_append, ih, count_escapeChar q c hq]

/-- C10: the Escaper leaves both quote characters untouched — only `<`, `>`
and `&` are replaced — so every quote of the input survives raw in the
output (the escaped text is therefore safe only in element-text position,
not inside an attribute value). -/
theorem C10_quotes_pass_through_raw :
    escapeChar quoteChar = [quoteChar] ∧
    escapeChar squoteChar = [squoteChar] ∧
    (∀ s : List Char,
      (escapeHtml s).count quoteChar = s.count quoteChar ∧
      (escapeHtml s).count squoteChar = s.count squoteChar) :=
  ⟨by decide, by decide, fun s =>
    ⟨count_escapeHtml quoteChar (Or.inl rfl) s,
     count_escapeHtml squoteChar (Or.inr rfl) s⟩⟩

end LorealChat

namespace LorealChat

/-! ## The Inline Formatter

`applyInlineFormatting` runs three global regexp replacements in order:

1. bold: `\*\*(.+?)\*\*` replaced by `<strong>$1</strong>`;
2. single-asterisk emphasis: a `*` with non-consuming guards excluding an
   adjacent `*` on either side, interior `([^*]+?)`, closing `*` likewise
   guarded, replaced by `<em>$1</em>`;
3. the same shape for `_` markers.

Each replacement is embedded as a left-to-right scanner: at each position
it attempts the leftmost match (the non-greedy interior realised as the
shortest viable split), emits the replacement, and resumes after the match,
carrying the previous character of the subject for the look-behind (the
subject of one replacement call never changes, so the look-behind sees the
original characters, also inside already-replaced regions).  The scanners
take fuel, initialised to the subject length, which is always sufficient;
this keeps them structurally recursive and computable. -/

/-- Shortest split `l = x ++ '*' :: '*' :: r` with `x` nonempty and every
character of `x` matchable by the regexp `.` (no line terminator): the
non-greedy interior of `\*\*(.+?)\*\*`.  `none` when no such split exists,
i.e. the bold pattern fails at this opening. -/
def splitBeforeStars : List Char → Option (List Char × List Char)
  | [] => none
  | c :: rest =>
    if isLineTerm c then none
    else if headSat (fun d => d == '*') rest ∧ headSat (fun d => d == '*') rest.tail then
      some ([c], rest.tail.tail)
    else
      match splitBeforeStars rest with
      | some (x, r) => some (c :: x, r)
      | none => none

lemma headSat_true {p : Char → Bool} {l : List Char} (h : headSat p l = true) :
    ∃ d t, l = d :: t ∧ p d = true := by
  cases l with
  | nil => exact absurd h (by simp [headSat])
  | cons d t => exact ⟨d, t, rfl, h⟩

lemma splitBeforeStars_length {l x r : List Char}
    (h : splitBeforeStars l = some (x, r)) : r.length + 3 ≤ l.length := by
  induction l generalizing x r with
  | nil => simp [splitBeforeStars] at h
  | cons c rest ih =>
    rw [splitBeforeStars] at h
    by_cases hterm : isLineTerm c = true
    · rw [if_pos hterm] at h
      exact absurd h (by simp)
    · rw [if_neg hterm] at h
      split at h
      · rename_i hcond
        obtain ⟨hs1, hs2⟩ := hcond
        obtain ⟨d, t, hdt, _⟩ := headSat_true hs1
        subst hdt
        obtain ⟨e, t2, het, _⟩ := headSat_true (by simpa using hs2)
        simp only [List.tail_cons] at het h
        subst het
        obtain ⟨h1, h2⟩ := Prod.mk.injEq _ _ _ _ ▸ Option.some.injEq _ _ ▸ h
        subst h2
        simp
      · split at h
        · rename_i x' r' heq
          obtain ⟨h1, h2⟩ := Prod.mk.injEq _ _ _ _ ▸ Option.some.injEq _ _ ▸ h
          subst h2
          have := ih heq
          simp only [List.length_cons]
          omega
        · exact absurd h (by simp)

/-- One step of the global bold replacement `\*\*(.+?)\*\*` →
`<strong>$1</strong>`: at a position opening with `**`, replace the
shortest interior up to the next `**`; if the pattern fails here, emit the
character and rescan from the next position. -/
def boldAux : Nat → List Char → List Char
  | 0, l => l
  | _ + 1, [] => []
  | fuel + 1, c :: rest =>
    if c = '*' ∧ headSat (fun d => d == '*') rest then
      match splitBeforeStars rest.tail with
      | some (x, r) => "<strong>".data ++ x ++ "</strong>".data ++ boldAux fuel r
      | none => c :: boldAux fuel rest
    else c :: boldAux fuel rest

/-- The bold pass of `applyInlineFormatting`. -/
def replaceBold (l : List Char) : List Char := boldAux l.length l

/-- Shortest split `l = x ++ m :: r` where `x` is a nonempty run of
non-`m` characters (`[^m]+?`) and the closing `m` is not followed by
another `m` (the trailing non-consuming guard).  `none` when the emphasis
pattern fails at this opening. -/
def splitEm (m : Char) : List Char → Option (List Char × List Char)
  | [] => none
  | c :: rest =>
    if c = m then none
    else if headSat (fun d => d == m) rest then
      if headSat (fun d => d == m) rest.tail then none
      else some ([c], rest.tail)
    else
      match splitEm m rest with
      | some (x, r) => some (c :: x, r)
      | none => none

lemma splitEm_length {m : Char} {l x r : List Char}
    (h : splitEm m l = some (x, r)) : r.length + 2 ≤ l.length := by
  induction l generalizing x r with
  | nil => simp [splitEm] at h
  | cons c rest ih =>
    rw [splitEm] at h
    by_cases hm : c = m
    · rw [if_pos hm] at h
      exact absurd h (by simp)
    · rw [if_neg hm] at h
      split at h
      · rename_i hs1
        split at h
        · exact absurd h (by simp)
        · obtain ⟨d, t, hdt, _⟩ := headSat_true hs1
          subst hdt
          obtain ⟨h1, h2⟩ := Prod.mk.injEq _ _ _ _ ▸ Option.some.injEq _ _ ▸ h
          subst h2
          simp
      · split at h
        · rename_i x' r' heq
          obtain ⟨h1, h2⟩ := Prod.mk.injEq _ _ _ _ ▸ Option.some.injEq _ _ ▸ h
          subst h2
          have := ih heq
          simp only [List.length_cons]
          omega
        · exact absurd h (by simp)

/-- One step of a global single-marker emphasis replacement (marker `m` is
`*` or `_`): a marker fires only when the previous subject character is not
`m` (look-behind), the next character is not `m` (look-ahead), and a
guarded closing split exists; otherwise the character is emitted literally
and scanning moves one position. -/
def emAux (m : Char) : Nat → Option Char → List Char → List Char
  | 0, _, l => l
  | _ + 1, _, [] => []
  | fuel + 1, prev, c :: rest =>
    if c = m ∧ prev ≠ some m ∧ headSat (fun d => d == m) rest = false then
      match splitEm m rest with
      | some (x, r) => "<em>".data ++ x ++ "</em>".data ++ emAux m fuel (some m) r
      | none => c :: emAux m fuel (some c) rest
    else c :: emAux m fuel (some c) rest

/-- A full single-marker emphasis pass (start of subject: no previous
character). -/
def emReplace (m : Char) (l : List Char) : List Char := emAux m l.length none l

/-- `applyInlineFormatting` of the source: bold pass, then single-asterisk
emphasis, then underscore emphasis. -/
def applyInlineFormatting (text : List Char) : List Char :=
  emReplace '_' (emReplace '*' (replaceBold text))

lemma headSat_false_of_clean {m : Char} {l : List Char} (h : ∀ c ∈ l, c ≠ m) :
    headSat (fun d => d == m) l = false := by
  cases l with
  | nil => rfl
  | cons d t =>
    have := h d (List.mem_cons_self d t)
    simp [headSat, this]

lemma splitEm_none_of_clean {m : Char} {l : List Char} (h : ∀ c ∈ l, c ≠ m) :
    splitEm m l = none := by
  induction l with
  | nil => rfl
  | cons c rest ih =>
    have hrest : ∀ d ∈ rest, d ≠ m := fun d hd => h d (List.mem_cons_of_mem c hd)
    rw [splitEm, if_neg (h c (List.mem_cons_self c rest))]
    rw [if_neg (by simp [headSat_false_of_clean hrest])]
    rw [ih hrest]

lemma boldAux_id_of_clean {l : List Char} (h : ∀ c ∈ l, c ≠ '*') :
    ∀ fuel, boldAux fuel l = l := by
  induction l with
  | nil => intro fuel; cases fuel <;> rfl
  | cons c rest ih =>
    intro fuel
    cases fuel with
    | zero => rfl
    | succ f =>
      rw [boldAux, if_neg (fun hcon => h c (List.mem_cons_self c rest) hcon.1)]
      rw [ih (fun d hd => h d (List.mem_cons_of_mem c hd)) f]

lemma emAux_id_of_clean {m : Char} {l : List Char} (h : ∀ c ∈ l, c ≠ m) :
    ∀ fuel prev, emAux m fuel prev l = l := by
  induction l with
  | nil => intro fuel prev; cases fuel <;> rfl
  | cons c rest ih =>
    intro fuel prev
    cases fuel with
    | zero => rfl
    | succ f =>
      rw [emAux, if_neg (fun hcon => h c (List.mem_cons_self c rest) hcon.1)]
      rw [ih (fun d hd => h d (List.mem_cons_of_mem c hd)) f (some c)]

lemma boldAux_single_star {x y : List Char} (hx : ∀ c ∈ x, c ≠ '*')
    (hy : ∀ c ∈ y, c ≠ '*') :
    ∀ fuel, boldAux fuel (x ++ '*' :: y) = x ++ '*' :: y := by
  induction x with
  | nil =>
    intro fuel
    cases fuel with
    | zero => rfl
    | succ f =>
      simp only [List.nil_append]
      rw [boldAux, if_neg ?hneg]
      · rw [boldAux_id_of_clean hy f]
      case hneg =>
        intro hcon
        have h2 := hcon.2
        rw [headSat_false_of_clean hy] at h2
        exact absurd h2 (by simp)
  | cons a x2 ih =>
    intro fuel
    cases fuel with
    | zero => rfl
    | succ f =>
      have ha : a ≠ '*' := hx a (List.mem_cons_self a x2)
      rw [List.cons_append, boldAux, if_neg (fun hcon => ha hcon.1)]
      rw [ih (fun d hd => hx d (List.mem_cons_of_mem a hd)) f]

lemma emAux_single {m : Char} {x y : List Char} (hx : ∀ c ∈ x, c ≠ m)
    (hy : ∀ c ∈ y, c ≠ m) :
    ∀ fuel prev, emAux m fuel prev (x ++ m :: y) = x ++ m :: y := by
  induction x with
  | nil =>
    intro fuel prev
    cases fuel with
    | zero => rfl
    | succ f =>
      simp only [List.nil_append]
      rw [emAux]
      by_cases hcond : m = m ∧ prev ≠ some m ∧ headSat (fun d => d == m) y = false
      · rw [if_pos hcond, splitEm_none_of_clean hy]
        show m :: emAux m f (some m) y = m :: y
        rw [emAux_id_of_clean hy f (some m)]
      · rw [if_neg hcond]
        rw [emAux_id_of_clean hy f (some m)]
  | cons a x2 ih =>
    intro fuel prev
    cases fuel with
    | zero => rfl
    | succ f =>
      have ha : a ≠ m := hx a (List.mem_cons_self a x2)
      rw [List.cons_append, emAux, if_neg (fun hcon => ha hcon.1)]
      rw [ih (fun d hd => hx d (List.mem_cons_of_mem a hd)) f (some a)]

lemma emAux_pair (m : Char) (fuel : Nat) (prev : Option Char) (rest : List Char) :
    emAux m (fuel + 2) prev (m :: m :: rest)
      = m :: m :: emAux m fuel (some m) rest := by
  rw [show fuel + 2 = (fuel + 1) + 1 from rfl]
  rw [emAux, if_neg ?hneg1]
  · rw [emAux, if_neg (fun hcon => hcon.2.1 rfl)]
  case hneg1 =>
    intro hcon
    have h3 := hcon.2.2
    simp [headSat] at h3

/-- The Inline Formatter leaves a line without marker characters
unchanged. -/
lemma applyInline_id_of_clean {s : List Char}
    (h : ∀ c ∈ s, c ≠ '*' ∧ c ≠ '_') : applyInlineFormatting s = s := by
  have hs : ∀ c ∈ s, c ≠ '*' := fun c hc => (h c hc).1
  have hu : ∀ c ∈ s, c ≠ '_' := fun c hc => (h c hc).2
  show emReplace '_' (emReplace '*' (replaceBold s)) = s
  rw [show replaceBold s = s from boldAux_id_of_clean hs s.length]
  rw [show emReplace '*' s = s from emAux_id_of_clean hs s.length none]
  exact emAux_id_of_clean hu s.length none

/-- C5: on `*a* **b** *c*` the Inline Formatter marks exactly `b` strong
and exactly `a` and `c` emphasised, with no span crossing between the
three marker groups; and in general a `*` that is part of a `**` pair can
never fire the single-asterisk emphasis rule — the scanner emits both
adjacent asterisks literally and resumes after them. -/
theorem C5_bold_between_italics :
    applyInlineFormatting "*a* **b** *c*".data
      = "<em>a</em> <strong>b</strong> <em>c</em>".data ∧
    (∀ (fuel : Nat) (prev : Option Char) (rest : List Char),
      emAux '*' (fuel + 2) prev ('*' :: '*' :: rest)
        = '*' :: '*' :: emAux '*' fuel (some '*') rest) :=
  ⟨by decide, fun fuel prev rest => emAux_pair '*' fuel prev rest⟩

/-- C8 counterexample: the Inline Formatter is not idempotent.  The bold
pass of `****a** ****b**` leaves literal `**` inside each `<strong>`
interior, and a second application matches across the inserted tags,
changing the string again. -/
theorem C8_idempotence_counterexample :
    applyInlineFormatting (applyInlineFormatting "****a** ****b**".data)
      ≠ applyInlineFormatting "****a** ****b**".data := by decide

/-- C8 amended: idempotence fails in general (see the counterexample), but
the edge-case behaviour holds: the formatter is the identity — hence
idempotent — on marker-free lines, a line whose only marker character is a
single unmatched `*` or `_` is returned literally unchanged, and marker
pairs spanning zero characters produce no emphasis. -/
theorem C8_amended_inline_edge_cases :
    (∀ s : List Char, (∀ c ∈ s, c ≠ '*' ∧ c ≠ '_') →
      applyInlineFormatting s = s ∧
      applyInlineFormatting (applyInlineFormatting s) = applyInlineFormatting s) ∧
    (∀ x y : List Char,
      (∀ c ∈ x, c ≠ '*' ∧ c ≠ '_') → (∀ c ∈ y, c ≠ '*' ∧ c ≠ '_') →
      applyInlineFormatting (x ++ '*' :: y) = x ++ '*' :: y ∧
      applyInlineFormatting (x ++ '_' :: y) = x ++ '_' :: y) ∧
    applyInlineFormatting "**".data = "**".data ∧
    applyInlineFormatting "****".data = "****".data ∧
    applyInlineFormatting "__".data = "__".data := by
  have hid : ∀ s : List Char, (∀ c ∈ s, c ≠ '*' ∧ c ≠ '_') →
      applyInlineFormatting s = s := fun s h => applyInline_id_of_clean h
  refine ⟨fun s h => ⟨hid s h, ?_⟩, fun x y hx hy => ⟨?_, ?_⟩, by decide, by decide, by decide⟩
  · rw [hid s h, hid s h]
  · have hxs : ∀ c ∈ x, c ≠ '*' := fun c hc => (hx c hc).1
    have hys : ∀ c ∈ y, c ≠ '*' := fun c hc => (hy c hc).1
    have hcleanU : ∀ c ∈ x ++ '*' :: y, c ≠ '_' := by
      intro c hc
      rcases List.mem_append.mp hc with hcx | hcy
      · exact (hx c hcx).2
      · rcases List.mem_cons.mp hcy with hstar | hcy2
        · subst hstar; decide
        · exact (hy c hcy2).2
    show emReplace '_' (emReplace '*' (replaceBold (x ++ '*' :: y))) = _
    rw [show replaceBold (x ++ '*' :: y) = x ++ '*' :: y from
      boldAux_single_star hxs hys _]
    rw [show emReplace '*' (x ++ '*' :: y) = x ++ '*' :: y from
      emAux_single hxs hys _ none]
    exact emAux_id_of_clean hcleanU _ none
  · have hxu : ∀ c ∈ x, c ≠ '_' := fun c hc => (hx c hc).2
    have hyu : ∀ c ∈ y, c ≠ '_' := fun c hc => (hy c hc).2
    have hcleanS : ∀ c ∈ x ++ '_' :: y, c ≠ '*' := by
      intro c hc
      rcases List.mem_append.mp hc with hcx | hcy
      · exact (hx c hcx).1
      · rcases List.mem_cons.mp hcy with hund | hcy2
        · subst hund; decide
        · exact (hy c hcy2).1
    show emReplace '_' (emReplace '*' (replaceBold (x ++ '_' :: y))) = _
    rw [show replaceBold (x ++ '_' :: y) = x ++ '_' :: y from
      boldAux_id_of_clean hcleanS _]
    rw [show emReplace '*' (x ++ '_' :: y) = x ++ '_' :: y from
      emAux_id_of_clean hcleanS _ none]
    exact emAux_single hxu hyu _ none

/-- Witness for C8 amended, at concrete marker-free and single-marker
lines. -/
theorem C8_amended_inline_edge_cases_witness :
    applyInlineFormatting "ab".data = "ab".data ∧
    applyInlineFormatting ("a".data ++ '*' :: "b".data) = "a".data ++ '*' :: "b".data ∧
    applyInlineFormatting ("a".data ++ '_' :: "b".data) = "a".data ++ '_' :: "b".data :=
  ⟨(C8_amended_inline_edge_cases.1 "ab".data (by decide)).1,
    (C8_amended_inline_edge_cases.2.1 "a".data "b".data (by decide) (by decide)).1,
    (C8_amended_inline_edge_cases.2.1 "a".data "b".data (by decide) (by decide)).2⟩

/-! ## The Block Formatter

`formatMessage` escapes the whole text, splits it into lines on the
separator regexp `\r?\n`, and walks the lines with one `inList` flag:
heading lines close any open list and emit `<h·>…</h·>`, bullet lines open
a list if needed and emit `<li>…</li>`, every other line closes any open
list, is inline-formatted, and is followed by a `<br>` per the blank-line
rule armed on the next raw line. -/

/-- Split on the separator regexp `\r?\n`: each `\n` separates, consuming a
directly preceding `\r`; a lone `\r` is ordinary line content. -/
def splitLines : List Char → List (List Char)
  | [] => [[]]
  | '\r' :: '\n' :: rest => [] :: splitLines rest
  | '\n' :: rest => [] :: splitLines rest
  | c :: rest =>
    match splitLines rest with
    | [] => [[c]]
    | l :: ls => (c :: l) :: ls

/-- `line.match(/^(#{1,6})\s+(.+)$/)`: one to six leading hashes, at least
one whitespace, then a nonempty group-2 remainder of `.`-matchable
characters running to the end of the line.  When the remainder after the
whitespace run is empty, backtracking lets `(.+)` consume the last
whitespace character instead, provided the run has at least two characters
and that character is `.`-matchable. -/
def headingParse (l : List Char) : Option (Nat × List Char) :=
  let k := (l.takeWhile (fun c => c == '#')).length
  if 1 ≤ k ∧ k ≤ 6 then
    let rest := l.drop k
    let w0 := rest.takeWhile isJsWs
    let t := rest.dropWhile isJsWs
    if w0.length = 0 then none
    else if t ≠ [] then
      if t.any isLineTerm then none else some (k, t)
    else if 2 ≤ w0.length ∧ isLineTerm (w0.getLastD ' ') = false then
      some (k, [w0.getLastD ' '])
    else none
  else none

/-- `line.match(/^\s*([-*+])\s+(.*)$/)`: optional whitespace, a bullet
marker, at least one whitespace, then the `(.*)` item text running to the
end of the line (the greedy `\s+` leaves the item starting at the first
non-whitespace character; a remainder holding a line terminator defeats
`(.*)$`). -/
def bulletParse (l : List Char) : Option (List Char) :=
  match l.dropWhile isJsWs with
  | [] => none
  | c :: m =>
    if c = '-' ∨ c = '*' ∨ c = '+' then
      if (m.takeWhile isJsWs).length ≠ 0 ∧ (m.dropWhile isJsWs).any isLineTerm = false then
        some (m.dropWhile isJsWs)
      else none
    else none

/-- `/^#{1,6}\s+/.test(nextLine)`. -/
def headingTest (l : List Char) : Bool :=
  let k := (l.takeWhile (fun c => c == '#')).length
  decide (1 ≤ k ∧ k ≤ 6) && headSat isJsWs (l.drop k)

/-- `/^\s*[-*+]\s+/.test(nextLine)`. -/
def bulletTest (l : List Char) : Bool :=
  match l.dropWhile isJsWs with
  | c :: m => (c == '-' || c == '*' || c == '+') && headSat isJsWs m
  | [] => false

/-- The `<br>` decision between the (already inline-formatted) current
regular line and the next raw line: break when neither side is blank and
the next line opens no heading or bullet; additionally break whenever
either side is blank. -/
def lineBreakFor (fl next : List Char) : List Char :=
  if headingTest next = false ∧ bulletTest next = false ∧
      isBlank fl = false ∧ isBlank next = false then "<br>".data
  else if isBlank fl = true ∨ isBlank next = true then "<br>".data
  else []

/-- `` `<h${level}>` ``. -/
def hOpen (level : Nat) : List Char := "<h".data ++ (Nat.repr level).data ++ ">".data

/-- `` `</h${level}>` ``. -/
def hClose (level : Nat) : List Char := "</h".data ++ (Nat.repr level).data ++ ">".data

/-- The line loop of `formatMessage`, carrying the `inList` flag. -/
def formatLines : Bool → List (List Char) → List Char
  | true, [] => "</ul>".data
  | false, [] => []
  | inList, l :: rest =>
    match headingParse l with
    | some (level, t) =>
      (if inList then "</ul>".data else []) ++ hOpen level
        ++ applyInlineFormatting t ++ hClose level ++ formatLines false rest
    | none =>
      match bulletParse l with
      | some item =>
        (if inList then ([] : List Char) else "<ul>".data) ++ "<li>".data
          ++ applyInlineFormatting item ++ "</li>".data ++ formatLines true rest
      | none =>
        (if inList then "</ul>".data else []) ++ applyInlineFormatting l
          ++ (match rest with
              | [] => []
              | next :: _ => lineBreakFor (applyInlineFormatting l) next)
          ++ formatLines false rest

/-- `formatMessage`: falsy (empty) input short-circuits to `""`; otherwise
escape the whole text first, then run the line loop. -/
def formatMessage (text : List Char) : List Char :=
  if text = [] then [] else formatLines false (splitLines (escapeHtml text))

/-- C2: on the four-line content `"# Title\n- one\n- two\nplain"` the Block
Formatter emits a level-1 heading wrapping `Title`, immediately followed by
one bullet list with exactly the items `one` and `two` in order, the list
closed before the text `plain` and no list tag left open. -/
theorem C2_block_formatter_example :
    formatMessage "# Title\n- one\n- two\nplain".data
      = "<h1>Title</h1><ul><li>one</li><li>two</li></ul>plain".data := by decide

lemma blank_chars {b : List Char} (h : isBlank b = true) :
    ∀ c ∈ b, isJsWs c = true := by
  simpa [isBlank, List.all_eq_true] using h

lemma blank_not_marker {b : List Char} (h : isBlank b = true) :
    ∀ c ∈ b, c ≠ '*' ∧ c ≠ '_' := by
  intro c hc
  have hws := blank_chars h c hc
  constructor <;> intro heq <;> subst heq <;> exact absurd hws (by decide)

lemma blank_escape_id {b : List Char} (h : isBlank b = true) :
    escapeHtml b = b := by
  apply escapeHtml_id_of_clean
  intro c hc hcase
  have hws := blank_chars h c hc
  rcases hcase with heq | heq | heq <;> subst heq <;> exact absurd hws (by decide)

lemma blank_headingParse {b : List Char} (h : isBlank b = true) :
    headingParse b = none := by
  cases b with
  | nil => rfl
  | cons c t =>
    have hc := blank_chars h c (List.mem_cons_self c t)
    have hne : (c == '#') = false := by
      have : c ≠ '#' := by
        intro heq
        subst heq
        exact absurd hc (by decide)
      simp [this]
    simp [headingParse, List.takeWhile_cons, hne]

lemma blank_bulletParse {b : List Char} (h : isBlank b = true) :
    bulletParse b = none := by
  have hdrop : b.dropWhile isJsWs = [] :=
    List.dropWhile_eq_nil_iff.mpr (blank_chars h)
  simp [bulletParse, hdrop]

lemma lineBreakFor_blank_next {fl next : List Char} (h : isBlank next = true) :
    lineBreakFor fl next = "<br>".data := by
  rw [lineBreakFor, if_neg (fun hcon => by rw [h] at hcon; exact absurd hcon.2.2.2 (by simp)),
    if_pos (Or.inr h)]

lemma lineBreakFor_blank_cur {fl next : List Char} (h : isBlank fl = true) :
    lineBreakFor fl next = "<br>".data := by
  rw [lineBreakFor, if_neg (fun hcon => by rw [h] at hcon; exact absurd hcon.2.2.1 (by simp)),
    if_pos (Or.inl h)]

lemma splitLines_cons_ord {a : Char} (t : List Char) (h1 : a ≠ '\n') (h2 : a ≠ '\r') :
    splitLines (a :: t)
      = match splitLines t with
        | [] => [[a]]
        | l :: ls => (a :: l) :: ls := by
  conv_lhs => rw [splitLines.eq_def]
  split
  · rename_i heq
    exact absurd heq (List.cons_ne_nil a t)
  · rename_i heq
    injection heq with hh _
    exact absurd hh h2
  · rename_i heq
    injection heq with hh _
    exact absurd hh h1
  · rename_i heq4
    injection heq4 with hh ht
    subst hh
    subst ht
    rfl

lemma splitLines_append {p rest : List Char} (h1 : '\n' ∉ p) (h2 : '\r' ∉ p) :
    splitLines (p ++ '\n' :: rest) = p :: splitLines rest := by
  induction p with
  | nil => rfl
  | cons a p2 ih =>
    have ha1 : a ≠ '\n' := fun heq => h1 (heq ▸ List.mem_cons_self a p2)
    have ha2 : a ≠ '\r' := fun heq => h2 (heq ▸ List.mem_cons_self a p2)
    rw [List.cons_append, splitLines_cons_ord _ ha1 ha2,
      ih (fun hm => h1 (List.mem_cons_of_mem a hm)) (fun hm => h2 (List.mem_cons_of_mem a hm))]

lemma splitLines_single {q : List Char} (h1 : '\n' ∉ q) (h2 : '\r' ∉ q) :
    splitLines q = [q] := by
  induction q with
  | nil => rfl
  | cons a q2 ih =>
    have ha1 : a ≠ '\n' := fun heq => h1 (heq ▸ List.mem_cons_self a q2)
    have ha2 : a ≠ '\r' := fun heq => h2 (heq ▸ List.mem_cons_self a q2)
    rw [splitLines_cons_ord _ ha1 ha2,
      ih (fun hm => h1 (List.mem_cons_of_mem a hm)) (fun hm => h2 (List.mem_cons_of_mem a hm))]

lemma escapeHtml_append (u v : List Char) :
    escapeHtml (u ++ v) = escapeHtml u ++ escapeHtml v := by
  induction u with
  | nil => rfl
  | cons c u2 ih =>
    show escapeChar c ++ escapeHtml (u2 ++ v) = (escapeChar c ++ escapeHtml u2) ++ escapeHtml v
    rw [ih, List.append_assoc]

/-- C6: a run of two blank lines between prose lines produces exactly one
`<br>` per adjacent-line transition (three transitions, three breaks — not
a number miscounted per blank pair); and between two non-blank regular
lines a break is emitted exactly when the next line opens no heading and
no bullet. -/
theorem C6_blank_run_breaks :
    (∀ p b1 b2 q : List Char,
      headingParse p = none → bulletParse p = none →
      headingParse q = none → bulletParse q = none →
      isBlank p = false → isBlank q = false →
      isBlank b1 = true → isBlank b2 = true →
      '\n' ∉ p → '\r' ∉ p → '\n' ∉ q → '\r' ∉ q →
      '\n' ∉ b1 → '\r' ∉ b1 → '\n' ∉ b2 → '\r' ∉ b2 →
      escapeHtml p = p → escapeHtml q = q →
      formatMessage (p ++ '\n' :: (b1 ++ '\n' :: (b2 ++ '\n' :: q)))
        = applyInlineFormatting p ++ "<br>".data ++ b1 ++ "<br>".data
            ++ b2 ++ "<br>".data ++ applyInlineFormatting q) ∧
    (∀ fl next : List Char, isBlank fl = false → isBlank next = false →
      lineBreakFor fl next
        = if headingTest next = true ∨ bulletTest next = true then []
          else "<br>".data) := by
  constructor
  · intro p b1 b2 q hp1 hp2 hq1 hq2 hpb hqb hb1 hb2 hpn hpr hqn hqr hb1n hb1r hb2n hb2r hpe hqe
    have hne : p ++ '\n' :: (b1 ++ '\n' :: (b2 ++ '\n' :: q)) ≠ [] := by
      intro heq
      rcases List.append_eq_nil.mp heq with ⟨_, h⟩
      exact List.cons_ne_nil _ _ h
    rw [formatMessage, if_neg hne]
    rw [escapeHtml_append, hpe]
    rw [show escapeHtml ('\n' :: (b1 ++ '\n' :: (b2 ++ '\n' :: q)))
        = '\n' :: escapeHtml (b1 ++ '\n' :: (b2 ++ '\n' :: q)) from rfl]
    rw [escapeHtml_append, blank_escape_id hb1]
    rw [show escapeHtml ('\n' :: (b2 ++ '\n' :: q))
        = '\n' :: escapeHtml (b2 ++ '\n' :: q) from rfl]
    rw [escapeHtml_append, blank_escape_id hb2]
    rw [show escapeHtml ('\n' :: q) = '\n' :: escapeHtml q from rfl, hqe]
    rw [splitLines_append hpn hpr, splitLines_append hb1n hb1r,
      splitLines_append hb2n hb2r, splitLines_single hqn hqr]
    have hb1inline : applyInlineFormatting b1 = b1 :=
      applyInline_id_of_clean (blank_not_marker hb1)
    have hb2inline : applyInlineFormatting b2 = b2 :=
      applyInline_id_of_clean (blank_not_marker hb2)
    simp only [formatLines, hp1, hp2, hq1, hq2, blank_headingParse hb1,
      blank_bulletParse hb1, blank_headingParse hb2, blank_bulletParse hb2,
      hb1inline, hb2inline]
    rw [@lineBreakFor_blank_next (applyInlineFormatting p) b1 hb1,
      @lineBreakFor_blank_cur b1 b2 hb1,
      @lineBreakFor_blank_cur b2 q hb2]
    simp [List.append_assoc]
  · intro fl next h1 h2
    have hor : ¬(isBlank fl = true ∨ isBlank next = true) := by
      intro hcon
      rcases hcon with hcon | hcon
      · rw [h1] at hcon
        exact absurd hcon (by simp)
      · rw [h2] at hcon
        exact absurd hcon (by simp)
    by_cases hh : headingTest next = true
    · have hne1 : ¬(headingTest next = false ∧ bulletTest next = false ∧
          isBlank fl = false ∧ isBlank next = false) := by
        intro hcon
        rw [hcon.1] at hh
        exact absurd hh (by simp)
      rw [lineBreakFor, if_neg hne1, if_neg hor, if_pos (Or.inl hh)]
    · by_cases hb : bulletTest next = true
      · have hne1 : ¬(headingTest next = false ∧ bulletTest next = false ∧
            isBlank fl = false ∧ isBlank next = false) := by
          intro hcon
          rw [hcon.2.1] at hb
          exact absurd hb (by simp)
        rw [lineBreakFor, if_neg hne1, if_neg hor, if_pos (Or.inr hb)]
      · have hrhs : ¬(headingTest next = true ∨ bulletTest next = true) := by
          intro hcon
          rcases hcon with hcon | hcon
          · exact hh hcon
          · exact hb hcon
        rw [lineBreakFor,
          if_pos ⟨Bool.not_eq_true _ ▸ hh, Bool.not_eq_true _ ▸ hb, h1, h2⟩,
          if_neg hrhs]

/-- Witness for C6 at `p = "a"`, a blank run of an empty and a one-space
line, and `q = "b"`. -/
theorem C6_blank_run_breaks_witness :
    formatMessage ("a".data ++ '\n' :: ("".data ++ '\n' :: (" ".data ++ '\n' :: "b".data)))
      = applyInlineFormatting "a".data ++ "<br>".data ++ "".data ++ "<br>".data
          ++ " ".data ++ "<br>".data ++ applyInlineFormatting "b".data ∧
    lineBreakFor "x".data "y".data
      = if headingTest "y".data = true ∨ bulletTest "y".data = true then []
        else "<br>".data :=
  ⟨C6_blank_run_breaks.1 "a".data "".data " ".data "b".data
      (by decide) (by decide) (by decide) (by decide) (by decide) (by decide)
      (by decide) (by decide) (by decide) (by decide) (by decide) (by decide)
      (by decide) (by decide) (by decide) (by decide) (by decide) (by decide),
    C6_blank_run_breaks.2 "x".data "y".data (by decide) (by decide)⟩

/-! ## The Transcript Manager and the submit handler

`chatHistory` is an ordered list of role-tagged entries; the seeded
greeting carries `initial: true` (absent on every other entry, hence
`false` in the embedding).  The form-submit handler trims the input,
rejects blank input, intercepts the `/name` command, optionally runs the
one-time name prompt, evicts the seeded greeting, appends the user entry,
and pushes then removes the transient `Thinking...` indicator before the
network call.  The network call `callOpenAI` appends exactly one assistant
entry for every outcome. -/

/-- Who produced an entry. -/
inductive Role
  | user
  | assistant
deriving DecidableEq

/-- One transcript entry: `{role, content}` plus the `initial` seed flag
(absent, i.e. `false`, on all but the seeded greeting). -/
structure Entry where
  role : Role
  content : List Char
  initial : Bool
deriving DecidableEq

/-- Content of the seeded greeting. -/
def greetingText : List Char :=
  "👋 Hello! I".data ++ squoteChar :: "m the L".data
    ++ squoteChar :: "Oréal Product Advisor — I can help with L".data
    ++ squoteChar :: ("Oréal products, skincare and haircare routines, "
      ++ "and recommendations. What would you like to know?").data

/-- The seeded assistant greeting, flagged `initial: true`. -/
def seedGreeting : Entry :=
  { role := Role.assistant, content := greetingText, initial := true }

/-- `chatHistory.filter((m) => !(m.role === "assistant" && m.initial === true))`:
the seed-greeting eviction run on every accepted submission. -/
def evictSeed (h : List Entry) : List Entry :=
  h.filter (fun m => !(m.role == Role.assistant && m.initial == true))

/-- The sentinel content of the transient typing placeholder. -/
def typingText : List Char := "Thinking...".data

/-- `chatHistory.push({ role: "assistant", content: "Thinking..." })`. -/
def pushTyping (h : List Entry) : List Entry :=
  h ++ [{ role := Role.assistant, content := typingText, initial := false }]

/-- `chatHistory.filter((m) => !(m.role === "assistant" && m.content === "Thinking..."))`:
the placeholder removal that runs before the network call. -/
def removeTyping (h : List Entry) : List Entry :=
  h.filter (fun m => !(m.role == Role.assistant && m.content == typingText))

/-- `text.toLowerCase()` (ASCII case mapping suffices for the command
prefix). -/
def jsToLower (s : List Char) : List Char := s.map Char.toLower

/-- `text.toLowerCase().startsWith("/name ")`. -/
def isNameCommand (t : List Char) : Bool :=
  List.isPrefixOf "/name ".data (jsToLower t)

/-- The acknowledgment entry pushed when a name is set. -/
def ackEntry (name : List Char) : Entry :=
  { role := Role.assistant,
    content := "Nice to meet you, ".data ++ name
      ++ ". I".data ++ squoteChar :: "ll remember that for this session.".data,
    initial := false }

/-- The mutable session state owned by the handler: the transcript, the
profile name, and the asked-once flag. -/
structure ChatState where
  history : List Entry
  profileName : Option (List Char)
  hasAskedName : Bool
deriving DecidableEq

/-- Session start: transcript seeded with the greeting, no name known. -/
def seededState : ChatState :=
  { history := [seedGreeting], profileName := none, hasAskedName := false }

/-- The form-submit handler, through the synchronous portion that precedes
the network call: trim and reject blank input; intercept `/name`; run the
one-time prompt (`promptRes` is its external result, `none` when skipped,
cancelled or blocked); evict the seeded greeting; append the user entry;
push then remove the typing placeholder. -/
def handleSubmit (st : ChatState) (raw : List Char)
    (promptRes : Option (List Char)) : ChatState :=
  let text := jsTrim raw
  if text = [] then st
  else if isNameCommand text then
    let nm := jsTrim (text.drop 6)
    if nm = [] then st
    else { st with profileName := some nm, history := st.history ++ [ackEntry nm] }
  else
    let st1 :=
      if st.profileName = none ∧ st.hasAskedName = false then
        match promptRes with
        | some np =>
          if jsTrim np = [] then { st with hasAskedName := true }
          else
            { st with
                profileName := some (jsTrim np)
                history := st.history ++ [ackEntry (jsTrim np)]
                hasAskedName := true }
        | none => { st with hasAskedName := true }
      else st
    { st1 with
      history := removeTyping (pushTyping
        (evictSeed st1.history
          ++ [{ role := Role.user, content := text, initial := false }])) }

/-- Outcome of the `fetch` round trip as `callOpenAI` observes it: a
success whose parsed body may or may not hold
`choices[0].message.content`, a non-success status with a body text, or a
thrown transport/parse exception. -/
inductive FetchResult
  | success (reply : Option (List Char))
  | httpError (status : Nat) (body : List Char)
  | networkFailure (message : List Char)
deriving DecidableEq

/-- The fixed fallback used when a success payload lacks the reply field. -/
def noReplyFallback : List Char := "Sorry, I did not receive a reply.".data

/-- `callOpenAI`, response side: every outcome appends exactly one
assistant entry — the reply, the fallback, or an `Error: …` description
(the non-success branch throws
`` `Worker proxy error: ${status} ${text}` `` which the catch turns into
`` `Error: ${err.message}` ``) — and the catch swallows every failure. -/
def callOpenAI (h : List Entry) (r : FetchResult) : List Entry :=
  match r with
  | .success (some reply) =>
    h ++ [{ role := Role.assistant, content := reply, initial := false }]
  | .success none =>
    h ++ [{ role := Role.assistant, content := noReplyFallback, initial := false }]
  | .httpError status body =>
    h ++ [{ role := Role.assistant,
            content := "Error: Worker proxy error: ".data
              ++ (Nat.repr status).data ++ " ".data ++ body,
            initial := false }]
  | .networkFailure msg =>
    h ++ [{ role := Role.assistant, content := "Error: ".data ++ msg,
            initial := false }]

@[simp] lemma beq_user_assistant : (Role.user == Role.assistant) = false := rfl

@[simp] lemma beq_assistant_user : (Role.assistant == Role.user) = false := rfl

@[simp] lemma beq_user_user : (Role.user == Role.user) = true := rfl

@[simp] lemma beq_assistant_assistant : (Role.assistant == Role.assistant) = true := rfl

lemma handleSubmit_normal (st : ChatState) (raw : List Char)
    (pr : Option (List Char)) (h1 : jsTrim raw ≠ [])
    (h2 : isNameCommand (jsTrim raw) = false) :
    ∃ ack : List Entry, (∀ e ∈ ack, e.role = Role.assistant ∧ e.initial = false) ∧
      (handleSubmit st raw pr).history
        = removeTyping (pushTyping (evictSeed (st.history ++ ack)
            ++ [{ role := Role.user, content := jsTrim raw, initial := false }])) := by
  cases pr with
  | none =>
    refine ⟨[], fun e he => absurd he (List.not_mem_nil e), ?_⟩
    simp only [handleSubmit]
    rw [if_neg h1, if_neg (by simp [h2])]
    by_cases hcond : st.profileName = none ∧ st.hasAskedName = false
    · rw [if_pos hcond]
      simp
    · rw [if_neg hcond]
      simp
  | some np =>
    by_cases hnp : jsTrim np = []
    · refine ⟨[], fun e he => absurd he (List.not_mem_nil e), ?_⟩
      simp only [handleSubmit]
      rw [if_neg h1, if_neg (by simp [h2])]
      by_cases hcond : st.profileName = none ∧ st.hasAskedName = false
      · rw [if_pos hcond, if_pos hnp]
        simp
      · rw [if_neg hcond]
        simp
    · by_cases hcond : st.profileName = none ∧ st.hasAskedName = false
      · refine ⟨[ackEntry (jsTrim np)], ?_, ?_⟩
        · intro e he
          rw [List.mem_singleton] at he
          subst he
          exact ⟨rfl, rfl⟩
        · simp only [handleSubmit]
          rw [if_neg h1, if_neg (by simp [h2]), if_pos hcond, if_neg hnp]
      · refine ⟨[], fun e he => absurd he (List.not_mem_nil e), ?_⟩
        simp only [handleSubmit]
        rw [if_neg h1, if_neg (by simp [h2]), if_neg hcond]
        simp

lemma handleSubmit_cases (st : ChatState) (raw : List Char)
    (pr : Option (List Char)) :
    (handleSubmit st raw pr).history = st.history ∨
    (∃ nm, (handleSubmit st raw pr).history = st.history ++ [ackEntry nm]) ∨
    (∃ ack text, (∀ e ∈ ack, e.role = Role.assistant ∧ e.initial = false) ∧
      (handleSubmit st raw pr).history
        = removeTyping (pushTyping (evictSeed (st.history ++ ack)
            ++ [{ role := Role.user, content := text, initial := false }]))) := by
  by_cases h1 : jsTrim raw = []
  · left
    simp [handleSubmit, h1]
  · by_cases h2 : isNameCommand (jsTrim raw) = true
    · by_cases h3 : jsTrim ((jsTrim raw).drop 6) = []
      · left
        simp only [handleSubmit]
        rw [if_neg h1, if_pos h2, if_pos h3]
      · right; left
        refine ⟨jsTrim ((jsTrim raw).drop 6), ?_⟩
        simp only [handleSubmit]
        rw [if_neg h1, if_pos h2, if_neg h3]
    · right; right
      obtain ⟨ack, hack, heq⟩ :=
        handleSubmit_normal st raw pr h1 (Bool.not_eq_true _ ▸ h2)
      exact ⟨ack, jsTrim raw, hack, heq⟩

lemma userFilter_pipeline (L : List Entry) (text : List Char) :
    (removeTyping (pushTyping (evictSeed L
        ++ [{ role := Role.user, content := text, initial := false }]))).filter
          (fun e => e.role == Role.user)
      = L.filter (fun e => e.role == Role.user)
        ++ [{ role := Role.user, content := text, initial := false }] := by
  unfold removeTyping pushTyping evictSeed
  rw [List.filter_append, List.filter_append, List.filter_append,
    List.filter_append]
  simp only [List.filter_filter, List.filter_cons, List.filter_nil]
  norm_num
  apply List.filter_congr
  intro e _
  obtain ⟨r, c, i⟩ := e
  cases r <;> simp

lemma seedFree_pipeline (L : List Entry) (text : List Char) :
    (removeTyping (pushTyping (evictSeed L
        ++ [{ role := Role.user, content := text, initial := false }]))).countP
          (fun e => e.role == Role.assistant && e.initial) = 0 := by
  rw [List.countP_eq_zero]
  intro e he
  unfold removeTyping pushTyping evictSeed at he
  rw [List.mem_filter] at he
  rcases List.mem_append.mp he.1 with hin | hone
  · rcases List.mem_append.mp hin with hin2 | hone2
    · rw [List.mem_filter] at hin2
      intro hseed
      have hkeep := hin2.2
      rw [show (e.initial == true) = e.initial from by cases e.initial <;> rfl] at hkeep
      rw [hseed] at hkeep
      exact absurd hkeep (by simp)
    · rw [List.mem_singleton] at hone2
      subst hone2
      simp
  · rw [List.mem_singleton] at hone
    subst hone
    simp

/-- C3: a submission that is blank after trimming leaves the whole session
state untouched (no entry created); a non-blank, non-command submission
appends exactly one user entry holding the trimmed text and leaves no
seed-flagged entry; concretely, submitting `hello` to the seeded
transcript yields exactly one user entry `hello` and zero seed-greeting
entries. -/
theorem C3_submit_user_lifecycle :
    (∀ (st : ChatState) (raw : List Char) (pr : Option (List Char)),
      jsTrim raw = [] → handleSubmit st raw pr = st) ∧
    (∀ (st : ChatState) (raw : List Char) (pr : Option (List Char)),
      jsTrim raw ≠ [] → isNameCommand (jsTrim raw) = false →
      (handleSubmit st raw pr).history.filter (fun e => e.role == Role.user)
        = st.history.filter (fun e => e.role == Role.user)
          ++ [{ role := Role.user, content := jsTrim raw, initial := false }] ∧
      (handleSubmit st raw pr).history.countP
          (fun e => e.role == Role.assistant && e.initial) = 0) ∧
    (handleSubmit seededState "hello".data none).history
      = [{ role := Role.user, content := "hello".data, initial := false }] ∧
    (handleSubmit seededState "hello".data none).history.countP
        (fun e => e.role == Role.user && e.content == "hello".data) = 1 ∧
    (handleSubmit seededState "hello".data none).history.countP
        (fun e => e.role == Role.assistant && e.initial) = 0 := by
  refine ⟨?_, ?_, by decide, by decide, by decide⟩
  · intro st raw pr h
    simp [handleSubmit, h]
  · intro st raw pr h1 h2
    obtain ⟨ack, hack, heq⟩ := handleSubmit_normal st raw pr h1 h2
    rw [heq]
    constructor
    · rw [userFilter_pipeline]
      congr 1
      rw [List.filter_append]
      have hacknil : ack.filter (fun e => e.role == Role.user) = [] := by
        rw [List.filter_eq_nil_iff]
        intro e he
        rw [(hack e he).1]
        simp
      rw [hacknil, List.append_nil]
    · exact seedFree_pipeline _ _

/-- Witness for C3 at the seeded state: a blank submission is a no-op, and
a non-blank one appends the user entry and leaves no seed entry. -/
theorem C3_submit_user_lifecycle_witness :
    handleSubmit seededState "   ".data none = seededState ∧
    (handleSubmit seededState "hi".data none).history.filter
        (fun e => e.role == Role.user)
      = seededState.history.filter (fun e => e.role == Role.user)
        ++ [{ role := Role.user, content := jsTrim "hi".data, initial := false }] ∧
    (handleSubmit seededState "hi".data none).history.countP
        (fun e => e.role == Role.assistant && e.initial) = 0 :=
  ⟨C3_submit_user_lifecycle.1 seededState "   ".data none (by decide),
    (C3_submit_user_lifecycle.2.1 seededState "hi".data none
      (by decide) (by decide)).1,
    (C3_submit_user_lifecycle.2.1 seededState "hi".data none
      (by decide) (by decide)).2⟩

/-- C4 counterexample: the placeholder removal filter matches on sentinel
content, so when the transcript already holds an assistant entry whose
content equals `Thinking...`, appending the placeholder and removing it
does not restore the transcript — the pre-existing entry is deleted too. -/
theorem C4_placeholder_roundtrip_counterexample :
    removeTyping (pushTyping
        [{ role := Role.assistant, content := typingText, initial := false }])
      ≠ [{ role := Role.assistant, content := typingText, initial := false }] := by
  decide

/-- C4 amended: for every transcript state containing no assistant entry
whose content equals the sentinel `Thinking...`, appending the transient
placeholder and then removing it restores the transcript byte-for-byte
(same entries in the same order) and removes no pre-existing entry. -/
theorem C4_amended_placeholder_roundtrip (h : List Entry)
    (hclean : ∀ e ∈ h, e.role = Role.assistant → e.content ≠ typingText) :
    removeTyping (pushTyping h) = h := by
  unfold removeTyping pushTyping
  rw [List.filter_append]
  have h2 : List.filter
      (fun m => !(m.role == Role.assistant && m.content == typingText))
      [({ role := Role.assistant, content := typingText, initial := false } : Entry)]
        = [] := by decide
  rw [h2, List.append_nil, List.filter_eq_self]
  intro e he
  obtain ⟨r, c, i⟩ := e
  cases r with
  | user => simp
  | assistant =>
    have hne := hclean _ he rfl
    simp only [beq_assistant_assistant, Bool.true_and, Bool.not_eq_true']
    simpa using hne

/-- Witness for C4 amended at a transcript of one user entry. -/
theorem C4_amended_placeholder_roundtrip_witness :
    removeTyping (pushTyping
        [{ role := Role.user, content := "hi".data, initial := false }])
      = [{ role := Role.user, content := "hi".data, initial := false }] :=
  C4_amended_placeholder_roundtrip _ (by decide)

/-- C7: every outcome of the network call — reply, missing reply field,
non-success status, thrown exception — appends exactly one assistant entry
to the transcript (`callOpenAI` is total: the catch swallows every
failure), the missing-field case appending the fixed fallback text and the
success case the reply itself. -/
theorem C7_network_outcome_single_entry (h : List Entry) (r : FetchResult) :
    (∃ c, callOpenAI h r
      = h ++ [{ role := Role.assistant, content := c, initial := false }]) ∧
    callOpenAI h (FetchResult.success none)
      = h ++ [{ role := Role.assistant, content := noReplyFallback, initial := false }] ∧
    ∀ reply, callOpenAI h (FetchResult.success (some reply))
      = h ++ [{ role := Role.assistant, content := reply, initial := false }] := by
  refine ⟨?_, rfl, fun reply => rfl⟩
  cases r with
  | success o =>
    cases o with
    | some c => exact ⟨c, rfl⟩
    | none => exact ⟨noReplyFallback, rfl⟩
  | httpError s b => exact ⟨_, rfl⟩
  | networkFailure m => exact ⟨_, rfl⟩

/-- C9: the seed eviction runs on every accepted (non-blank, non-command)
submission and removes every seed-flagged entry, so afterwards the
transcript has zero seed-flagged entries; absence of seed-flagged entries
is preserved by every submission (including commands and blanks) and by
every assistant append of the network call, which never sets the flag. -/
theorem C9_seed_eviction_invariant :
    (∀ (st : ChatState) (raw : List Char) (pr : Option (List Char)),
      jsTrim raw ≠ [] → isNameCommand (jsTrim raw) = false →
      (handleSubmit st raw pr).history.countP
          (fun e => e.role == Role.assistant && e.initial) = 0) ∧
    (∀ (st : ChatState) (raw : List Char) (pr : Option (List Char)),
      st.history.countP (fun e => e.role == Role.assistant && e.initial) = 0 →
      (handleSubmit st raw pr).history.countP
          (fun e => e.role == Role.assistant && e.initial) = 0) ∧
    (∀ (h : List Entry) (r : FetchResult),
      (callOpenAI h r).countP (fun e => e.role == Role.assistant && e.initial)
        = h.countP (fun e => e.role == Role.assistant && e.initial)) := by
  refine ⟨?_, ?_, ?_⟩
  · intro st raw pr h1 h2
    obtain ⟨ack, hack, heq⟩ := handleSubmit_normal st raw pr h1 h2
    rw [heq]
    exact seedFree_pipeline _ _
  · intro st raw pr h0
    rcases handleSubmit_cases st raw pr with heq | ⟨nm, heq⟩ | ⟨ack, text, hack, heq⟩
    · rw [heq]
      exact h0
    · rw [heq, List.countP_append, h0]
      simp [ackEntry, List.countP_cons]
    · rw [heq]
      exact seedFree_pipeline _ _
  · intro h r
    cases r with
    | success o =>
      cases o with
      | some c => simp [callOpenAI, List.countP_append, List.countP_cons]
      | none => simp [callOpenAI, List.countP_append, List.countP_cons]
    | httpError s b => simp [callOpenAI, List.countP_append, List.countP_cons]
    | networkFailure m => simp [callOpenAI, List.countP_append, List.countP_cons]

/-- Witness for C9: the accepted submission `hi` from the seeded state, a
command submission from a seed-free state, and a network append. -/
theorem C9_seed_eviction_invariant_witness :
    (handleSubmit seededState "hi".data none).history.countP
        (fun e => e.role == Role.assistant && e.initial) = 0 ∧
    (handleSubmit ⟨[], none, true⟩ "/name Bob".data none).history.countP
        (fun e => e.role == Role.assistant && e.initial) = 0 ∧
    (callOpenAI [] (FetchResult.success none)).countP
        (fun e => e.role == Role.assistant && e.initial)
      = ([] : List Entry).countP (fun e => e.role == Role.assistant && e.initial) :=
  ⟨C9_seed_eviction_invariant.1 seededState "hi".data none (by decide) (by decide),
    C9_seed_eviction_invariant.2.1 ⟨[], none, true⟩ "/name Bob".data none (by decide),
    C9_seed_eviction_invariant.2.2 [] (FetchResult.success none)⟩

end LorealChat
